import Mathlib

/-!
Verification of the SLRDesktop core (src/main.py) against its specification.

Text is modelled as `List Char`; a pandas cell is `Cell` (missing value or
text).  All definitions are shallow embeddings of the Python functions in
src/main.py, keeping the source names where Lean allows it.
-/

namespace SLR

/-- A pandas cell: missing (NaN) or a text value.  Cells of the loaded
dataframe that the keyword scorer and the classifiers read are text cells;
`na` models a missing/NaN entry. -/
inductive Cell where
  | na : Cell
  | val : List Char → Cell
deriving DecidableEq, Repr

/-- Python `str.lower` restricted to ASCII (the inputs exercised here are
ASCII; `Char.toLower` lowers exactly the ASCII uppercase letters). -/
def pyLower (s : List Char) : List Char := s.map Char.toLower

/-- Case folding used by the scorer and renderer: identity when the search is
case sensitive, `str.lower` otherwise. -/
def fold (cse : Bool) (s : List Char) : List Char := if cse then s else pyLower s

/-- Occurrence counter scan, mirroring CPython `str.count` for a non-empty
pattern: scan left to right, and after a match skip the whole matched span
(non-overlapping matches).  The `skip` argument counts the characters of a
previous match that still have to be consumed. -/
def countOccsAux (w : List Char) : List Char → Nat → Nat
  | [], _ => 0
  | _ :: rest, skip + 1 => countOccsAux w rest skip
  | c :: rest, 0 =>
    if w.isPrefixOf (c :: rest) then 1 + countOccsAux w rest (w.length - 1)
    else countOccsAux w rest 0

/-- Python `s.count(w)`: for the empty pattern CPython returns `len(s) + 1`;
otherwise count non-overlapping occurrences from the left. -/
def pyCount (w s : List Char) : Nat :=
  if w = [] then s.length + 1 else countOccsAux w s 0

/-- src/main.py lines 1015-1019, `count_hits_cell` inside
`apply_filter_from_cfg`: a NaN cell contributes 0; otherwise sum, over the
configured keywords, of the substring-occurrence counts (case folded unless
`case` is set). -/
def count_hits_cell (cse : Bool) (words : List (List Char)) (cell : Cell) : Nat :=
  match cell with
  | .na => 0
  | .val s => (words.map (fun w => if cse then pyCount w s else pyCount (pyLower w) (pyLower s))).sum

/-- Column names and records.  A record is a row of the dataframe: an
association list from column name to cell (all records of one dataset share
the same column set). -/
abbrev ColName := List Char

/-- A record of the dataset. -/
abbrev Record := List (ColName × Cell)

/-- Reading one cell of a record by column name (the code only projects
columns that exist in the dataframe; a missing association is NaN). -/
def getCell (r : Record) (c : ColName) : Cell := (r.lookup c).getD .na

/-- src/main.py lines 1021-1024: the per-record hit count.  When the keyword
list or the target column list is empty the code materialises an all-zero
series; otherwise it sums `count_hits_cell` over the target columns. -/
def rowHits (cse : Bool) (words : List (List Char)) (cols : List ColName) (r : Record) : Nat :=
  if words = [] ∨ cols = [] then 0
  else (cols.map (fun c => count_hits_cell cse words (getCell r c))).sum

/-- src/main.py lines 1026-1027 (and 1034), `apply_filter_from_cfg`: keep the
records whose hit count is at least the cutoff (the working hits column is
added and dropped again, so the result rows equal the input rows).  The
cutoff is a Python int, hence `Int` here. -/
def apply_filter_from_cfg (df : List Record) (cols : List ColName)
    (words : List (List Char)) (cse : Bool) (cutoff : Int) : List Record :=
  df.filter (fun r => cutoff ≤ (rowHits cse words cols r : Int))

theorem mem_apply_filter {df : List Record} {cols : List ColName}
    {words : List (List Char)} {cse : Bool} {cutoff : Int} {r : Record} :
    r ∈ apply_filter_from_cfg df cols words cse cutoff ↔
      r ∈ df ∧ cutoff ≤ (rowHits cse words cols r : Int) := by
  simp [apply_filter_from_cfg, List.mem_filter]

/-- C1: for every dataset and filter configuration with cutoff at least 1,
every record of the produced result set has hit count at least the cutoff,
where the hit count is the sum over target columns and configured keywords of
(case folded) substring-occurrence counts; records below the cutoff are
excluded, NaN cells contribute 0 hits, and the empty dataset yields the
empty result set. -/
theorem filter_records_meet_cutoff (df : List Record) (cols : List ColName)
    (words : List (List Char)) (cse : Bool) (cutoff : Int) (_hc : 1 ≤ cutoff) :
    (∀ r ∈ apply_filter_from_cfg df cols words cse cutoff,
        cutoff ≤ (rowHits cse words cols r : Int))
    ∧ (∀ r ∈ df, (rowHits cse words cols r : Int) < cutoff →
        r ∉ apply_filter_from_cfg df cols words cse cutoff)
    ∧ (∀ r : Record, words ≠ [] → cols ≠ [] →
        rowHits cse words cols r
          = (cols.map (fun c => count_hits_cell cse words (getCell r c))).sum)
    ∧ count_hits_cell cse words Cell.na = 0
    ∧ apply_filter_from_cfg [] cols words cse cutoff = [] := by
  refine ⟨?_, ?_, ?_, rfl, rfl⟩
  · intro r hr
    exact (mem_apply_filter.mp hr).2
  · intro r _ hlt hmem
    exact absurd (mem_apply_filter.mp hmem).2 (not_le.mpr hlt)
  · intro r hw hcls
    simp [rowHits, hw, hcls]

/-- Witness for C1 at a concrete input: one keyword "ab", two records, the
first with two hits and the second with a NaN cell, cutoff 1. -/
theorem filter_records_meet_cutoff_witness :
    (1 : Int) ≤ 1
    ∧ ((∀ r ∈ apply_filter_from_cfg
          [[(['t'], Cell.val ['a', 'b', 'a', 'b'])], [(['t'], Cell.na)]]
          [['t']] [['a', 'b']] false 1,
          (1 : Int) ≤ (rowHits false [['a', 'b']] [['t']] r : Int))
      ∧ (∀ r ∈ ([[(['t'], Cell.val ['a', 'b', 'a', 'b'])], [(['t'], Cell.na)]] : List Record),
          (rowHits false [['a', 'b']] [['t']] r : Int) < 1 →
          r ∉ apply_filter_from_cfg
            [[(['t'], Cell.val ['a', 'b', 'a', 'b'])], [(['t'], Cell.na)]]
            [['t']] [['a', 'b']] false 1)
      ∧ (∀ r : Record, ([['a', 'b']] : List (List Char)) ≠ [] → ([['t']] : List ColName) ≠ [] →
          rowHits false [['a', 'b']] [['t']] r
            = (([['t']] : List ColName).map
                (fun c => count_hits_cell false [['a', 'b']] (getCell r c))).sum)
      ∧ count_hits_cell false [['a', 'b']] Cell.na = 0
      ∧ apply_filter_from_cfg [] [['t']] [['a', 'b']] false 1 = []) :=
  ⟨le_refl 1,
    filter_records_meet_cutoff
      [[(['t'], Cell.val ['a', 'b', 'a', 'b'])], [(['t'], Cell.na)]]
      [['t']] [['a', 'b']] false 1 (by decide)⟩

/-- C5: raising the cutoff can only shrink the result set: every record kept
at cutoff c2 is also kept at any cutoff c1 at most c2, all else equal. -/
theorem filter_cutoff_monotone (df : List Record) (cols : List ColName)
    (words : List (List Char)) (cse : Bool) (c1 c2 : Int) (h : c1 ≤ c2) :
    ∀ r ∈ apply_filter_from_cfg df cols words cse c2,
      r ∈ apply_filter_from_cfg df cols words cse c1 := by
  intro r hr
  rcases mem_apply_filter.mp hr with ⟨hmem, hle⟩
  exact mem_apply_filter.mpr ⟨hmem, le_trans h hle⟩

/-- Witness for C5 at a concrete input: cutoffs 1 and 2 on a one-record
dataset with two hits. -/
theorem filter_cutoff_monotone_witness :
    (1 : Int) ≤ 2
    ∧ (∀ r ∈ apply_filter_from_cfg [[(['t'], Cell.val ['a', 'b', 'a', 'b'])]]
          [['t']] [['a', 'b']] false 2,
        r ∈ apply_filter_from_cfg [[(['t'], Cell.val ['a', 'b', 'a', 'b'])]]
          [['t']] [['a', 'b']] false 1) :=
  ⟨by decide,
    filter_cutoff_monotone [[(['t'], Cell.val ['a', 'b', 'a', 'b'])]]
      [['t']] [['a', 'b']] false 1 2 (by decide)⟩

/-! ### Highlight renderer: per-keyword match counting (src/main.py lines 1085-1113) -/

/-- src/main.py line 1095: `sorted(mapping.keys(), key=len, reverse=True)`.
Python sorted is stable, so this is the stable descending-by-length sort. -/
def sortKeysDesc (l : List (List Char)) : List (List Char) :=
  l.insertionSort (fun a b => b.length ≤ a.length)

/-- src/main.py lines 1100-1102 inside `repl`: the canonical keyword credited
for a matched span is the first key (in the sorted alternation order) equal to
the matched text, case insensitively unless `case` is set, defaulting to the
first key. -/
def canonicalKey (keys : List (List Char)) (cse : Bool) (word : List Char) : List Char :=
  (keys.find? (fun k => if cse then word == k else pyLower word == pyLower k)).getD
    (keys.headD [])

/-- The scan performed by `re.sub` with the alternation pattern of
src/main.py line 1096: at each position not inside a previous match, the
first keyword of the alternation that matches there (case folded per the
IGNORECASE flag) produces a match, the scan then skips the matched span;
otherwise the scan advances one character.  Returns the list of canonical
keys credited, in match order. -/
def highlightMatchesAux (keys : List (List Char)) (cse : Bool) :
    List Char → Nat → List (List Char)
  | [], _ => []
  | _ :: rest, skip + 1 => highlightMatchesAux keys cse rest skip
  | c :: rest, 0 =>
    match keys.find? (fun k => (fold cse k).isPrefixOf (fold cse (c :: rest))) with
    | some k =>
        canonicalKey keys cse (List.take k.length (c :: rest)) ::
          highlightMatchesAux keys cse rest (k.length - 1)
    | none => highlightMatchesAux keys cse rest 0

/-- src/main.py lines 1085-1113, `_highlight_text`, counts component: the
per-keyword tallies returned alongside the markup.  Empty text returns the
empty dict (line 1087-1088); otherwise one entry per mapping key, counting
the matches credited to that key. -/
def perKeywordCounts (mapping : List (List Char × List Char)) (cse : Bool)
    (text : List Char) : List (List Char × Nat) :=
  if text = [] then []
  else
    mapping.map (fun p =>
      (p.1, (highlightMatchesAux (sortKeysDesc (mapping.map Prod.fst)) cse text 0).count p.1))

/-- Sum of the per-keyword counts reported by the renderer for one text. -/
def sumCounts (mapping : List (List Char × List Char)) (cse : Bool)
    (text : List Char) : Nat :=
  ((perKeywordCounts mapping cse text).map Prod.snd).sum

/-- The text `_highlight_text` effectively scans for a cell: line 1110 turns
a NaN value into the empty string before the regex runs. -/
def cellHighlightText (cell : Cell) : List Char :=
  match cell with
  | .na => []
  | .val s => s

/-- C2 counterexample: for the two keywords "ab" and "ba" on the text "aba"
(case-insensitive), the renderer reports 1 total match while the scorer
counts 2 hits, so the sum of perKeywordCounts does not equal the hit count of
the record for the same keyword set. -/
theorem render_counts_ne_hitCount :
    ¬ (([Cell.val ['a', 'b', 'a']].map (fun cell =>
          sumCounts [(['a', 'b'], ['#', 'c']), (['b', 'a'], ['#', 'c'])] false
            (cellHighlightText cell))).sum
        = rowHits false [['a', 'b'], ['b', 'a']] [['t']]
            [(['t'], Cell.val ['a', 'b', 'a'])]) := by
  decide

theorem canonicalKey_single (w word : List Char) (cse : Bool) :
    canonicalKey [w] cse word = w := by
  unfold canonicalKey
  rcases h : List.find? (fun k => if cse then word == k else pyLower word == pyLower k) [w] with _ | k
  · simp
  · have := List.find?_some h
    have hmem := List.mem_of_find?_eq_some h
    simp at hmem
    simp [hmem]

theorem fold_cons (cse : Bool) (c : Char) (l : List Char) :
    fold cse (c :: l) = (if cse then c else c.toLower) :: fold cse l := by
  cases cse <;> simp [fold, pyLower]

theorem fold_length (cse : Bool) (l : List Char) : (fold cse l).length = l.length := by
  cases cse <;> simp [fold, pyLower]

theorem fold_eq_nil_iff (cse : Bool) (l : List Char) : fold cse l = [] ↔ l = [] := by
  cases cse <;> simp [fold, pyLower]

theorem highlightMatches_single_length (w : List Char) (cse : Bool) :
    ∀ (s : List Char) (skip : Nat),
      (highlightMatchesAux [w] cse s skip).length
        = countOccsAux (fold cse w) (fold cse s) skip := by
  intro s
  induction s with
  | nil => intro skip; simp [highlightMatchesAux, fold, pyLower, countOccsAux]
  | cons c rest ih =>
    intro skip
    rw [fold_cons]
    cases skip with
    | succ k =>
      show (highlightMatchesAux [w] cse rest k).length = _
      rw [ih k]
      rfl
    | zero =>
      cases hp : (fold cse w).isPrefixOf (fold cse (c :: rest)) with
      | true =>
        have hfind : List.find?
            (fun k => (fold cse k).isPrefixOf (fold cse (c :: rest))) [w] = some w := by
          simp [List.find?, hp]
        have hl : countOccsAux (fold cse w)
              ((if cse then c else c.toLower) :: fold cse rest) 0
            = 1 + countOccsAux (fold cse w) (fold cse rest) ((fold cse w).length - 1) := by
          rw [countOccsAux]
          rw [← fold_cons]
          simp [hp]
        rw [hl, fold_length]
        show (highlightMatchesAux [w] cse (c :: rest) 0).length = _
        rw [highlightMatchesAux, hfind]
        simp only [List.length_cons, ih (w.length - 1)]
        omega
      | false =>
        have hfind : List.find?
            (fun k => (fold cse k).isPrefixOf (fold cse (c :: rest))) [w] = none := by
          simp [List.find?, hp]
        have hl : countOccsAux (fold cse w)
              ((if cse then c else c.toLower) :: fold cse rest) 0
            = countOccsAux (fold cse w) (fold cse rest) 0 := by
          rw [countOccsAux]
          rw [← fold_cons]
          simp [hp]
        rw [hl]
        show (highlightMatchesAux [w] cse (c :: rest) 0).length = _
        rw [highlightMatchesAux, hfind]
        exact ih 0

theorem highlightMatches_single_all_eq (w : List Char) (cse : Bool) :
    ∀ (s : List Char) (skip : Nat) (x : List Char),
      x ∈ highlightMatchesAux [w] cse s skip → x = w := by
  intro s
  induction s with
  | nil => intro skip x hx; simp [highlightMatchesAux] at hx
  | cons c rest ih =>
    intro skip x hx
    cases skip with
    | succ k => exact ih k x hx
    | zero =>
      rw [highlightMatchesAux] at hx
      rcases hfind : List.find?
          (fun k => (fold cse k).isPrefixOf (fold cse (c :: rest))) [w] with _ | k
      · rw [hfind] at hx
        exact ih 0 x hx
      · rw [hfind] at hx
        have hk : k = w := by
          have := List.mem_of_find?_eq_some hfind
          simpa using this
        rcases List.mem_cons.mp hx with h | h
        · rw [h, hk, canonicalKey_single]
        · exact ih (k.length - 1) x h

/-- Hit counting on the folded strings agrees with `count_hits_cell` for a
single non-empty keyword. -/
theorem count_hits_cell_single (w : List Char) (hw : w ≠ []) (cse : Bool) (s : List Char) :
    count_hits_cell cse [w] (Cell.val s) = countOccsAux (fold cse w) (fold cse s) 0 := by
  have hlw : pyLower w ≠ [] := by
    simp only [pyLower, ne_eq, List.map_eq_nil_iff]
    exact hw
  cases cse
  · simp [count_hits_cell, pyCount, fold, hlw]
  · simp [count_hits_cell, pyCount, fold, hw]

/-- C2 amended: for a keyword spec with a single (non-empty) keyword, the sum
of the perKeywordCounts reported by the renderer over the scanned fields of a
record equals the hit count the scorer computes for the same keyword and case
sensitivity.  (With several keywords the renderer consumes each matched span
once, so its total can be smaller than the scorer sum, as
`render_counts_ne_hitCount` shows.) -/
theorem render_counts_eq_hitCount_single (w color : List Char) (hw : w ≠ [])
    (cse : Bool) (cells : List Cell) :
    (cells.map (fun cell => sumCounts [(w, color)] cse (cellHighlightText cell))).sum
      = (cells.map (count_hits_cell cse [w])).sum := by
  have hcell : ∀ cell : Cell,
      sumCounts [(w, color)] cse (cellHighlightText cell)
        = count_hits_cell cse [w] cell := by
    intro cell
    cases cell with
    | na =>
      simp [sumCounts, perKeywordCounts, cellHighlightText, count_hits_cell]
    | val s =>
      rw [count_hits_cell_single w hw cse s]
      by_cases hs : s = []
      · subst hs
        simp [sumCounts, perKeywordCounts, cellHighlightText, countOccsAux, fold, pyLower]
      · have hsort : sortKeysDesc [w] = [w] := rfl
        have hcount : (highlightMatchesAux [w] cse s 0).count w
            = (highlightMatchesAux [w] cse s 0).length := by
          apply List.count_eq_length.mpr
          intro b hb
          exact (highlightMatches_single_all_eq w cse s 0 b hb).symm
        simp only [sumCounts, perKeywordCounts, cellHighlightText, if_neg hs,
          List.map_cons, List.map_nil, hsort, List.sum_cons, List.sum_nil]
        rw [hcount, highlightMatches_single_length w cse s 0]
        omega
  induction cells with
  | nil => rfl
  | cons cell rest ih =>
    simp only [List.map_cons, List.sum_cons, ih, hcell cell]

/-- Witness for C2 amended at a concrete input: keyword "ab" over two cells,
one with two occurrences and one NaN. -/
theorem render_counts_eq_hitCount_single_witness :
    (['a', 'b'] : List Char) ≠ []
    ∧ (([Cell.val ['a', 'b', 'x', 'a', 'b'], Cell.na].map (fun cell =>
          sumCounts [(['a', 'b'], ['#', 'c'])] false (cellHighlightText cell))).sum
        = ([Cell.val ['a', 'b', 'x', 'a', 'b'], Cell.na].map
            (count_hits_cell false [['a', 'b']])).sum) :=
  ⟨by decide,
    render_counts_eq_hitCount_single ['a', 'b'] ['#', 'c'] (by decide) false
      [Cell.val ['a', 'b', 'x', 'a', 'b'], Cell.na]⟩

/-! ### Highlight renderer: markup output (src/main.py lines 1085-1113) -/

/-- Shorthand: the character list of a string literal. -/
def str (s : String) : List Char := s.data

/-- The single-quote character, kept out of the string literals. -/
def sq : Char := Char.ofNat 39

/-- Scan for Python `str.replace`: left to right, non-overlapping; a matched
span is replaced by `rep` and consumed (`skip` counts characters of the
current match still to consume). -/
def replaceAllAux (pat rep : List Char) : List Char → Nat → List Char
  | [], _ => []
  | _ :: rest, skip + 1 => replaceAllAux pat rep rest skip
  | c :: rest, 0 =>
    if pat.isPrefixOf (c :: rest) then rep ++ replaceAllAux pat rep rest (pat.length - 1)
    else c :: replaceAllAux pat rep rest 0

/-- Python `s.replace(pat, rep)` (for the empty pattern CPython inserts the
replacement before every character and at the end). -/
def pyReplace (s pat rep : List Char) : List Char :=
  if pat = [] then rep ++ s.foldr (fun c acc => c :: (rep ++ acc)) []
  else replaceAllAux pat rep s 0

/-- CPython `html.escape` with its default `quote=True`: replaces, in this
order, the ampersand, the angle brackets, the double quote and the single
quote by their entity references. -/
def htmlEscape (s : List Char) : List Char :=
  pyReplace
    (pyReplace
      (pyReplace
        (pyReplace (pyReplace s (str "&") (str "&amp;")) (str "<") (str "&lt;"))
        (str ">") (str "&gt;"))
      (str "\"") (str "&quot;"))
    [sq] (str "&#x27;")

/-- src/main.py lines 1099-1105, `repl`: the replacement emitted for a
matched span: a bold colored span around the HTML-escaped matched text, the
color looked up for the canonical key with default "#c00000". -/
def replMarkup (keys : List (List Char)) (mapping : List (List Char × List Char))
    (cse : Bool) (word : List Char) : List Char :=
  let key := canonicalKey keys cse word
  let color := (mapping.lookup key).getD (str "#c00000")
  str "<b><span style=" ++ [sq] ++ str "color:" ++ color ++ [sq] ++ str ">"
    ++ htmlEscape word ++ str "</span></b>"

/-- The `re.sub(pattern, repl, s)` of src/main.py line 1111: same scan as
`highlightMatchesAux`, emitting unmatched characters unchanged and matched
spans through `replMarkup`. -/
def subMarkupAux (keys : List (List Char)) (mapping : List (List Char × List Char))
    (cse : Bool) : List Char → Nat → List Char
  | [], _ => []
  | _ :: rest, skip + 1 => subMarkupAux keys mapping cse rest skip
  | c :: rest, 0 =>
    match keys.find? (fun k => (fold cse k).isPrefixOf (fold cse (c :: rest))) with
    | some k =>
        replMarkup keys mapping cse (List.take k.length (c :: rest))
          ++ subMarkupAux keys mapping cse rest (k.length - 1)
    | none => c :: subMarkupAux keys mapping cse rest 0

/-- src/main.py lines 1085-1113, `_highlight_text`, markup component: empty
text gives empty markup; with no keywords the escaped text; otherwise the
`re.sub` output is HTML-escaped wholesale (line 1112) and the four literal
replacements only partly restore the bold and span tags. -/
def highlight_text_markup (mapping : List (List Char × List Char)) (cse : Bool)
    (text : List Char) : List Char :=
  if text = [] then []
  else if mapping = [] then htmlEscape text
  else
    pyReplace
      (pyReplace
        (pyReplace
          (pyReplace
            (htmlEscape
              (subMarkupAux (sortKeysDesc (mapping.map Prod.fst)) mapping cse text 0))
            (str "&lt;b&gt;") (str "<b>"))
          (str "&lt;/b&gt;") (str "</b>"))
        (str "&lt;span") (str "<span"))
      (str "span&gt;") (str "span>")

/-- Tag stripping: drop every maximal span from an opening angle bracket to
the next closing one (the flag records being inside a tag). -/
def stripTagsAux : List Char → Bool → List Char
  | [], _ => []
  | c :: rest, true => if c = '>' then stripTagsAux rest false else stripTagsAux rest true
  | c :: rest, false => if c = '<' then stripTagsAux rest true else c :: stripTagsAux rest false

/-- Strip all markup tags from a rendered output. -/
def stripTags (s : List Char) : List Char := stripTagsAux s false

/-- C3: the round trip fails on the code.  For the text "cat" with the single
keyword "cat" (case sensitive), the matched word is escaped inside `repl` and
then the whole output is escaped again, so the quotes of the span attribute
and the closing span tag stay escaped; stripping tags swallows the matched
word entirely and yields the empty string instead of the escaped original
text "cat".  (On a text with no match the output is just the escaped text, so
the intent of the spec is clearly what the renderer was meant to do.) -/
theorem render_roundtrip_fails_on_match :
    stripTags (highlight_text_markup [(str "cat", str "#d00000")] true (str "cat")) = []
    ∧ htmlEscape (str "cat") = str "cat"
    ∧ ¬ (stripTags (highlight_text_markup [(str "cat", str "#d00000")] true (str "cat"))
          = htmlEscape (str "cat"))
    ∧ stripTags (highlight_text_markup [(str "cat", str "#d00000")] true (str "dog"))
        = htmlEscape (str "dog") := by
  decide

/-! ### Paginator (src/main.py lines 1756-1767 and 1959-1973) -/

/-- src/main.py lines 1758-1759 in `_update_paging_ui`: the page size is
forced to at least 1 and the total page count is
`max(1, (total + ps - 1) // ps)` (Python floor division; all operands are
non-negative here). -/
def tot_pages (total : Nat) (pageSize : Int) : Int :=
  max 1 (((total : Int) + max 1 pageSize - 1) / max 1 pageSize)

/-- src/main.py line 1760: the displayed page index is the spinbox value
clamped into `[0, tot_pages - 1]`. -/
def update_paging_cur (total : Nat) (pageSize spinVal : Int) : Int :=
  min (max 0 spinVal) (tot_pages total pageSize - 1)

/-- src/main.py lines 1959-1973, `refresh_page` followed by its call to
`_update_paging_ui`: the requested index is read from the spinbox; when the
window start `index * pageSize` falls at or beyond the total the code resets
the spinbox to 0 (lines 1967-1970) rather than clamping to the last page;
`_update_paging_ui` then clamps whatever is left in the spinbox. -/
def refresh_page_index (total : Nat) (pageSize spinVal : Int) : Int :=
  let pageIndex := max 0 spinVal
  let start := pageIndex * pageSize
  let spin2 := if (total : Int) ≤ start ∧ 0 < total then 0 else spinVal
  update_paging_cur total pageSize spin2

/-- C4 counterexample: with pageSize 50 and 120 records, requesting page
index 5 does not yield page index 2 — `refresh_page` resets the request to
page 0 because the requested window start 250 is past the total. -/
theorem page_request_five_not_two :
    refresh_page_index 120 50 5 = 0 ∧ ¬ refresh_page_index 120 50 5 = 2 := by
  decide

/-- C4 amended: after every `refresh_page` the page index is clamped into
`[0, ceil(total/pageSize) - 1]` (0 when the total is 0); with pageSize 50 and
120 records the total page count is 3, but requesting page index 5 resets the
page index to 0 (out-of-range requests go to the first page, not the last). -/
theorem paginator_index_clamped (total : Nat) (pageSize spinVal : Int) :
    (0 ≤ refresh_page_index total pageSize spinVal
      ∧ refresh_page_index total pageSize spinVal ≤ tot_pages total pageSize - 1
      ∧ (total = 0 → refresh_page_index total pageSize spinVal = 0))
    ∧ tot_pages 120 50 = 3
    ∧ refresh_page_index 120 50 5 = 0 := by
  have h1 : (1 : Int) ≤ tot_pages total pageSize := le_max_left _ _
  refine ⟨⟨?_, ?_, ?_⟩, by decide, by decide⟩
  · simp only [refresh_page_index, update_paging_cur]
    exact le_min (le_max_left _ _) (by omega)
  · simp only [refresh_page_index, update_paging_cur]
    exact min_le_right _ _
  · intro h0
    subst h0
    have hzero : (((0 : Nat) : Int) + max 1 pageSize - 1) / max 1 pageSize = 0 := by
      have hps : (1 : Int) ≤ max 1 pageSize := le_max_left _ _
      apply Int.ediv_eq_zero_of_lt <;> omega
    have h2 : tot_pages 0 pageSize = 1 := by
      simp only [tot_pages]
      rw [hzero]
      decide
    simp only [refresh_page_index, update_paging_cur, h2]
    split_ifs <;> omega

/-! ### Sort toggle and the dropped hits column (src/main.py lines 1029-1034
and 1072-1078) -/

/-- A dataframe: its column set and its rows. -/
structure DF where
  cols : List ColName
  rows : List Record
deriving DecidableEq, Repr

/-- src/main.py lines 1014-1034 at dataframe level: score every row, add the
working column `__hits__`, keep the rows meeting the cutoff, optionally sort
descending by hits when the sort button is checked during the pass, then drop
`__hits__` again before storing `filtered_df` (line 1034).  The kept rows are
carried with their hit count until the drop.  The sort is modelled as the
stable descending sort on the hit count (pandas `sort_values`; only its
ordering, never a tie order, is relied on below). -/
def applyFilterDF (df : DF) (cols : List ColName) (words : List (List Char))
    (cse : Bool) (cutoff : Int) (sortOn : Bool) : DF :=
  let scored := df.rows.map (fun r => (r, rowHits cse words cols r))
  let kept := scored.filter (fun rh => decide (cutoff ≤ (rh.2 : Int)))
  let kept2 := if sortOn then kept.insertionSort (fun a b => b.2 ≤ a.2) else kept
  { cols := (df.cols ++ [str "__hits__"]).filter (fun c => ¬ c = str "__hits__"),
    rows := kept2.map Prod.fst }

/-- src/main.py lines 1072-1078, `_resort_filtered_by_hits`: called when the
sort toggle changes; it returns immediately unless the stored `filtered_df`
still has a `__hits__` column, and only otherwise re-sorts the rows.  The
sorting call itself is abstracted as `sortRows` (whatever
`sort_values` would do), since the guard decides the claim. -/
def resort_filtered_by_hits (filtered : DF) (sortRows : List Record → List Record) : DF :=
  if (str "__hits__") ∈ filtered.cols then { filtered with rows := sortRows filtered.rows }
  else filtered

theorem hits_col_not_mem_applyFilterDF (df : DF) (cols : List ColName)
    (words : List (List Char)) (cse : Bool) (cutoff : Int) (sortOn : Bool) :
    (str "__hits__") ∉ (applyFilterDF df cols words cse cutoff sortOn).cols := by
  intro hmem
  simp [applyFilterDF, List.mem_filter] at hmem

/-- C6: toggling sort-by-hits after a filter pass never re-sorts: the
`__hits__` column was dropped when `filtered_df` was stored, so
`_resort_filtered_by_hits` always takes its early return.  Concretely, after
a pass with the sort button unchecked over two records with 1 and 2 hits, the
stored rows stay in original (ascending) order and any subsequent resort
leaves them unchanged, contradicting that the result set is descending by hit
count whenever sort-by-hits is enabled. -/
theorem sort_toggle_resort_noop :
    (∀ (filteredSortRows : List Record → List Record) (df : DF) (cols : List ColName)
        (words : List (List Char)) (cse : Bool) (cutoff : Int) (sortOn : Bool),
        resort_filtered_by_hits (applyFilterDF df cols words cse cutoff sortOn)
            filteredSortRows
          = applyFilterDF df cols words cse cutoff sortOn)
    ∧ (applyFilterDF ⟨[['t']], [[(['t'], Cell.val ['a'])], [(['t'], Cell.val ['a', 'a'])]]⟩
          [['t']] [['a']] true 1 false).rows
        = [[(['t'], Cell.val ['a'])], [(['t'], Cell.val ['a', 'a'])]]
    ∧ rowHits true [['a']] [['t']] [(['t'], Cell.val ['a'])]
        < rowHits true [['a']] [['t']] [(['t'], Cell.val ['a', 'a'])] := by
  refine ⟨?_, by decide, by decide⟩
  intro sortRows df cols words cse cutoff sortOn
  unfold resort_filtered_by_hits
  rw [if_neg]
  simpa using hits_col_not_mem_applyFilterDF df cols words cse cutoff sortOn

/-! ### Categorical classifier (src/main.py lines 797-950 and 1782-1843) -/

/-- Whitespace removed by Python `str.strip` (the ASCII whitespace; the
datasets exercised use plain spaces). -/
def isPySpace (c : Char) : Bool :=
  c == ' ' || c == '\t' || c == '\n' || c == '\r' || c == Char.ofNat 11 || c == Char.ofNat 12

/-- Leading-whitespace trim. -/
def trimL (s : List Char) : List Char := s.dropWhile isPySpace

/-- Trailing-whitespace trim. -/
def trimR (s : List Char) : List Char := s.rdropWhile isPySpace

/-- Python `str.strip`: both ends trimmed. -/
def pyStrip (s : List Char) : List Char := trimR (trimL s)

/-- Not-a-comma, the predicate delimiting the trailing comma token. -/
def ncomma (c : Char) : Bool := decide (¬ c = ',')

/-- Python `part.split(",")[-1]`: everything after the last comma (the whole
string when it has no comma). -/
def lastCommaTok (s : List Char) : List Char := s.rtakeWhile ncomma

/-- Python `needle in hay` on strings: substring containment. -/
def containsSub (needle : List Char) : List Char → Bool
  | [] => needle.isEmpty
  | c :: rest => needle.isPrefixOf (c :: rest) || containsSub needle rest

/-- Set insertion preserving first-seen order (a Python set collects unique
values; the order never matters below because every read sorts first). -/
def addToSet (x : List Char) (acc : List (List Char)) : List (List Char) :=
  if x ∈ acc then acc else acc ++ [x]

/-- Deduplication keeping first occurrences. -/
def dedupList (l : List (List Char)) : List (List Char) :=
  l.foldl (fun acc x => addToSet x acc) []

/-- Python string comparison: code-point lexicographic order. -/
def lexLeB : List Char → List Char → Bool
  | [], _ => true
  | _ :: _, [] => false
  | a :: as, b :: bs => if a = b then lexLeB as bs else decide (a < b)

/-- Python `sorted` on a collection of strings (ascending lexicographic;
stable, which is irrelevant on the duplicate-free inputs below). -/
def sortLex (l : List (List Char)) : List (List Char) :=
  l.insertionSort (fun a b => lexLeB a b = true)

/-- The string value the code reads for a cell after `fillna("")` (and the
NaN normalisation lines 887-888 / 1783-1784 / 818-819 do the same). -/
def fillna_str (cell : Cell) : List Char :=
  match cell with
  | .na => []
  | .val s => s

/-- src/main.py lines 881-895, `_extract_countries_from_affil`: split on ";",
strip each part and drop empty ones; for each part take the text after the
last comma, strip it, and keep it when at least 3 characters long; join the
sorted set with "; ". -/
def extract_countries_from_affil (text : List Char) : List Char :=
  let parts := ((text.splitOn ';').map pyStrip).filter (fun p => ¬ p = [])
  let countries := parts.foldl (fun acc part =>
    let last_segment := pyStrip (lastCommaTok part)
    if 3 ≤ last_segment.length then addToSet last_segment acc else acc) []
  List.intercalate (str "; ") (sortLex countries)

/-- src/main.py lines 897-904, `_detect_collab_scope`: split the country
string on ";", strip, drop empties; more than one distinct country is
International, exactly one listed country is Domestic, none is Unknown. -/
def detect_collab_scope (country_string : List Char) : List Char :=
  let countries := ((country_string.splitOn ';').map pyStrip).filter (fun c => ¬ c = [])
  if 1 < (dedupList countries).length then str "International"
  else if countries.length = 1 then str "Domestic"
  else str "Unknown"

/-- The per-record institution type set: one flag per category the code can
add to the Python set (src/main.py lines 1786-1797). -/
structure TypeFlags where
  academic : Bool
  research : Bool
  industry : Bool
  government : Bool
  unknown : Bool
deriving DecidableEq, Repr

/-- src/main.py lines 1782-1798, `_classify_institution_types`: NaN becomes
the empty string; segments are the stripped, lower-cased ";" parts (empties
dropped); each segment is tested against the four keyword families in
priority order Academic, Research, Industry, Government, falling back to
Unknown. -/
def classify_institution_types (affil_str : List Char) : TypeFlags :=
  let affils := ((affil_str.splitOn ';').map (fun a => pyLower (pyStrip a))).filter
    (fun a => ¬ a = [])
  affils.foldl (fun t affil =>
    if [str "univ", str "college", str "faculty", str "school of"].any
        (fun k => containsSub k affil) then
      { t with academic := true }
    else if [str "research", str "academy", str "laboratory", str "institute"].any
        (fun k => containsSub k affil) then
      { t with research := true }
    else if [str "corp", str "co.", str "inc", str "ltd", str "tech", str "company"].any
        (fun k => containsSub k affil) then
      { t with industry := true }
    else if [str "gov", str "ministry", str "bureau", str "department"].any
        (fun k => containsSub k affil) then
      { t with government := true }
    else { t with unknown := true })
    ⟨false, false, false, false, false⟩

/-- The size of the residual type set (after Unknown is discarded the
`unknown` flag is already false). -/
def numTypes (t : TypeFlags) : Nat :=
  (if t.academic then 1 else 0) + (if t.research then 1 else 0)
    + (if t.industry then 1 else 0) + (if t.government then 1 else 0)
    + (if t.unknown then 1 else 0)

/-- src/main.py lines 1800-1823, `_categorize_institution_combination`:
classify, discard Unknown, count the distinct stripped lower-cased
affiliation entries, then the branch cascade of the source: the four
singleton sets, the three Academic pairs, and the Mixed Collaboration
catch-all; the Academic singleton subdivides on the distinct-entry count. -/
def categorize_institution_combination (affil_str : List Char) : List Char :=
  let types := classify_institution_types affil_str
  let t : TypeFlags := { types with unknown := false }
  let unique_affil_count := (dedupList (((affil_str.splitOn ';').map
    (fun a => pyLower (pyStrip a))).filter (fun a => ¬ a = []))).length
  if t = ⟨true, false, false, false, false⟩ then
    (if unique_affil_count ≤ 1 then str "Same Academic/University"
     else str "Different Academic")
  else if t = ⟨false, true, false, false, false⟩ then str "Research only"
  else if t = ⟨false, false, true, false, false⟩ then str "Industry only"
  else if t = ⟨false, false, false, true, false⟩ then str "Government only"
  else if t.academic ∧ t.research ∧ numTypes t = 2 then str "Academic and Research"
  else if t.academic ∧ t.industry ∧ numTypes t = 2 then str "Academic and Industry"
  else if t.academic ∧ t.government ∧ numTypes t = 2 then str "Academic and Government"
  else str "Mixed Collaboration"

/-- C8: the worked example of the spec: the affiliation text
"Dept. X, Tokyo University, Japan; Acme Corp, USA" classifies to the type
set containing exactly Academic and Industry, its combination category is
"Academic and Industry", country extraction yields "Japan; USA", and the
collaboration scope of that country string is International. -/
theorem example_affiliation_classified :
    classify_institution_types (str "Dept. X, Tokyo University, Japan; Acme Corp, USA")
        = ⟨true, false, true, false, false⟩
    ∧ categorize_institution_combination
        (str "Dept. X, Tokyo University, Japan; Acme Corp, USA")
        = str "Academic and Industry"
    ∧ extract_countries_from_affil (str "Dept. X, Tokyo University, Japan; Acme Corp, USA")
        = str "Japan; USA"
    ∧ detect_collab_scope (extract_countries_from_affil
        (str "Dept. X, Tokyo University, Japan; Acme Corp, USA"))
        = str "International" := by
  decide

/-- src/main.py lines 1839-1842: the institutional-collaboration category of
every record of the affiliation column, after `fillna("")`. -/
def institution_collab_cats (col : List Cell) : List (List Char) :=
  col.map (fun cell => categorize_institution_combination (fillna_str cell))

/-- pandas `value_counts`: one entry per distinct value with its count,
highest counts first, then line 1843 re-sorts ascending for rendering. -/
def institution_collab_table (col : List Cell) : List (List Char × Nat) :=
  let cats := institution_collab_cats col
  let counts := (dedupList cats).map (fun k => (k, cats.count k))
  (counts.insertionSort (fun a b => b.2 ≤ a.2)).insertionSort (fun a b => a.2 ≤ b.2)

/-- C10 counterexample: a record with a missing affiliation cell is not
excluded from the institutional-collaboration table: the
catch-all maps the empty text to "Mixed Collaboration", and the table counts
it there. -/
theorem na_record_counted_in_table :
    institution_collab_table [Cell.na] = [(str "Mixed Collaboration", 1)]
    ∧ ¬ institution_collab_table [Cell.na] = [] := by
  decide

/-- C10 amended: classification of a missing or empty affiliation never
raises and yields the empty type set; but such a record is not excluded from
the category table: the combination categorizer is total and its catch-all
assigns "Mixed Collaboration" to the empty type set, so every record of the
column is counted in some category. -/
theorem missing_affiliation_not_excluded :
    classify_institution_types (fillna_str Cell.na) = ⟨false, false, false, false, false⟩
    ∧ classify_institution_types (fillna_str (Cell.val [])) = ⟨false, false, false, false, false⟩
    ∧ categorize_institution_combination (fillna_str Cell.na) = str "Mixed Collaboration"
    ∧ ∀ (col : List Cell), (institution_collab_cats col).length = col.length := by
  refine ⟨by decide, by decide, by decide, ?_⟩
  intro col
  simp [institution_collab_cats]

/-! ### Collaboration-scope table (src/main.py lines 906-950) and the
country aggregation (lines 797-827 and 2742-2765) -/

/-- src/main.py line 922: the main country of a record is the first ";"
segment of its extracted country string, stripped, or "Unknown" when the
extraction came back empty. -/
def main_country_of (extracted : List Char) : List Char :=
  if extracted = [] then str "Unknown"
  else pyStrip (extracted.takeWhile (fun c => decide (¬ c = ';')))

/-- src/main.py lines 917-927: per record, the (main country, scope) pair
over the affiliation column after `fillna("")`. -/
def collab_scope_pairs (col : List Cell) : List (List Char × List Char) :=
  col.map (fun cell =>
    let ex := extract_countries_from_affil (fillna_str cell)
    (main_country_of ex, detect_collab_scope ex))

/-- The group keys of `groupby(["Main Country", "Collab Scope"]).size().unstack()`:
pandas sorts the index, hence the sorted distinct main countries. -/
def collab_scope_keys (pairs : List (List Char × List Char)) : List (List Char) :=
  sortLex (dedupList (pairs.map Prod.fst))

/-- Total of one row of the pivot table. -/
def rowTotal (row : List Char × Nat × Nat) : Nat := row.2.1 + row.2.2

/-- Descending-by-total row order used by `nlargest` and the final
`sort_values`. -/
def rowGE (a b : List Char × Nat × Nat) : Prop := rowTotal b ≤ rowTotal a

instance : DecidableRel rowGE := fun a b => Nat.decLe (rowTotal b) (rowTotal a)

instance : IsTotal (List Char × Nat × Nat) rowGE :=
  ⟨fun a b => le_total (rowTotal b) (rowTotal a)⟩

instance : IsTrans (List Char × Nat × Nat) rowGE :=
  ⟨fun _ _ _ hab hbc => le_trans hbc hab⟩

/-- src/main.py lines 906-950, `_build_collab_scope_table`: pivot the
(main country, scope) pairs into one row per country with the Domestic and
International counts (every other scope column — Unknown — is dropped, and
both columns are always materialised, missing combinations counting 0);
keep the top 20 countries by total (`nlargest(20)`, first occurrence kept on
ties) and sort the result descending by total. -/
def build_collab_scope_table (col : List Cell) : List (List Char × Nat × Nat) :=
  let pairs := collab_scope_pairs col
  let rows := (collab_scope_keys pairs).map (fun c =>
    (c, pairs.count (c, str "Domestic"), pairs.count (c, str "International")))
  let top := (rows.insertionSort rowGE).take 20
  top.insertionSort rowGE

/-- src/main.py lines 817-827, the affiliation fallback of
`_get_country_series` (`_extract_main_country`): the country of the first
affiliation segment — the stripped text after its last comma — or
"Unknown". -/
def extract_main_country (cell : Cell) : List Char :=
  let text := fillna_str cell
  let parts := ((text.splitOn ';').map pyStrip).filter (fun p => ¬ p = [])
  match parts with
  | [] => str "Unknown"
  | p :: _ =>
    let last_segment := pyStrip (lastCommaTok p)
    if last_segment = [] then str "Unknown" else last_segment

/-- src/main.py lines 2754-2758: the country-aggregation count of one
country: records whose stripped main-country value equals it (empty values
dropped). -/
def docs_by_country_count (col : List Cell) (c : List Char) : Nat :=
  ((col.map (fun cell => pyStrip (extract_main_country cell))).filter
    (fun s => ¬ s = [])).count c

/-- C9 counterexample: for the one-record dataset with affiliation
"A Corp, USA; B Univ, Japan" the collab-scope table lists Japan with
Domestic+International = 1 (the extraction sorts the country set, so Japan
is the main country), while the country-aggregation table counts that record
under USA (the first affiliation), so the total for Japan there is 0. -/
theorem collab_total_ne_country_total :
    build_collab_scope_table [Cell.val (str "A Corp, USA; B Univ, Japan")]
        = [(str "Japan", 0, 1)]
    ∧ docs_by_country_count [Cell.val (str "A Corp, USA; B Univ, Japan")] (str "Japan") = 0
    ∧ ¬ (0 + 1
          = docs_by_country_count [Cell.val (str "A Corp, USA; B Univ, Japan")]
              (str "Japan")) := by
  decide

theorem count_pair_add
    (l : List (List Char × List Char)) (c : List Char) (d i : List Char) (hdi : ¬ d = i) :
    l.count (c, d) + l.count (c, i)
      = (l.filter (fun p => decide (p.1 = c ∧ (p.2 = d ∨ p.2 = i)))).length := by
  induction l with
  | nil => rfl
  | cons x xs ih =>
    rcases x with ⟨xa, xb⟩
    rw [List.count_cons, List.count_cons, List.filter_cons]
    split_ifs <;> simp_all <;> omega

theorem take_sort_dominates (rows : List (List Char × Nat × Nat))
    (x y : List Char × Nat × Nat)
    (hx : x ∈ ((rows.insertionSort rowGE).take 20).insertionSort rowGE)
    (hy : y ∈ rows)
    (hynot : y ∉ ((rows.insertionSort rowGE).take 20).insertionSort rowGE) :
    rowGE x y := by
  have hxtake : x ∈ (rows.insertionSort rowGE).take 20 :=
    (List.perm_insertionSort rowGE _).mem_iff.mp hx
  have hys : y ∈ rows.insertionSort rowGE :=
    (List.perm_insertionSort rowGE rows).mem_iff.mpr hy
  have hysplit : y ∈ (rows.insertionSort rowGE).take 20
      ++ (rows.insertionSort rowGE).drop 20 := by
    rw [List.take_append_drop]
    exact hys
  rcases List.mem_append.mp hysplit with hin | hin
  · exact absurd ((List.perm_insertionSort rowGE _).mem_iff.mpr hin) hynot
  · have hsorted : List.Pairwise rowGE ((rows.insertionSort rowGE).take 20
        ++ (rows.insertionSort rowGE).drop 20) := by
      rw [List.take_append_drop]
      exact List.sorted_insertionSort rowGE rows
    exact (List.pairwise_append.mp hsorted).2.2 x hxtake y hin

theorem mem_build_collab_scope_table {col : List Cell} {row : List Char × Nat × Nat}
    (h : row ∈ build_collab_scope_table col) :
    row.1 ∈ collab_scope_keys (collab_scope_pairs col)
    ∧ row.2.1 = (collab_scope_pairs col).count (row.1, str "Domestic")
    ∧ row.2.2 = (collab_scope_pairs col).count (row.1, str "International") := by
  have h1 : row ∈ ((collab_scope_keys (collab_scope_pairs col)).map (fun c =>
      (c, (collab_scope_pairs col).count (c, str "Domestic"),
        (collab_scope_pairs col).count (c, str "International")))) := by
    have h2 := (List.perm_insertionSort rowGE _).mem_iff.mp h
    exact (List.perm_insertionSort rowGE _).mem_iff.mp (List.mem_of_mem_take h2)
  rcases List.mem_map.mp h1 with ⟨c, hc, hrow⟩
  refine ⟨?_, ?_, ?_⟩ <;> (rw [← hrow]; try simpa using hc)

/-- C9 amended: in the exposed collab-scope table the Unknown scope column is
dropped and both the Domestic and International columns are materialised
(the table rows carry exactly those two counts); the listed countries are at
most 20 and dominate every unlisted country by Domestic+International total;
and for every listed country, Domestic+International equals the number of
records grouped under that main country with Domestic or International
scope — which, as `collab_total_ne_country_total` shows, need not equal the
country-aggregation total of that country, because the collab grouping keys
each record by the alphabetically first extracted country while the country
aggregation keys it by the first affiliation segment. -/
theorem collab_scope_table_totals (col : List Cell) :
    (∀ row ∈ build_collab_scope_table col,
        row.2.1 + row.2.2
          = ((collab_scope_pairs col).filter (fun p =>
              decide (p.1 = row.1
                ∧ (p.2 = str "Domestic" ∨ p.2 = str "International")))).length)
    ∧ (build_collab_scope_table col).length ≤ 20
    ∧ (∀ row ∈ build_collab_scope_table col,
        ∀ c ∈ collab_scope_keys (collab_scope_pairs col),
          c ∉ (build_collab_scope_table col).map Prod.fst →
          (collab_scope_pairs col).count (c, str "Domestic")
            + (collab_scope_pairs col).count (c, str "International")
            ≤ row.2.1 + row.2.2) := by
  refine ⟨?_, ?_, ?_⟩
  · intro row hrow
    rcases mem_build_collab_scope_table hrow with ⟨_, hd, hi⟩
    rw [hd, hi]
    exact count_pair_add (collab_scope_pairs col) row.1 (str "Domestic")
      (str "International") (by decide)
  · have hlen : (build_collab_scope_table col).length
        = ((((collab_scope_keys (collab_scope_pairs col)).map (fun k =>
            (k, (collab_scope_pairs col).count (k, str "Domestic"),
              (collab_scope_pairs col).count (k, str "International")))).insertionSort
                rowGE).take 20).length :=
      List.length_insertionSort _ _
    rw [hlen]
    exact le_trans (List.length_take_le _ _) (le_refl 20)
  · intro row hrow c hc hnot
    have hy : (c, (collab_scope_pairs col).count (c, str "Domestic"),
        (collab_scope_pairs col).count (c, str "International"))
        ∈ (collab_scope_keys (collab_scope_pairs col)).map (fun k =>
          (k, (collab_scope_pairs col).count (k, str "Domestic"),
            (collab_scope_pairs col).count (k, str "International"))) :=
      List.mem_map_of_mem _ hc
    have hynot : (c, (collab_scope_pairs col).count (c, str "Domestic"),
        (collab_scope_pairs col).count (c, str "International"))
        ∉ build_collab_scope_table col := by
      intro hmem
      exact hnot (by simpa using List.mem_map_of_mem Prod.fst hmem)
    have hdom := take_sort_dominates
      ((collab_scope_keys (collab_scope_pairs col)).map (fun k =>
        (k, (collab_scope_pairs col).count (k, str "Domestic"),
          (collab_scope_pairs col).count (k, str "International"))))
      row
      (c, (collab_scope_pairs col).count (c, str "Domestic"),
        (collab_scope_pairs col).count (c, str "International"))
      hrow hy hynot
    simpa [rowGE, rowTotal] using hdom

/-! ### C7: country extraction against the specification wording -/

theorem takeWhile_append_all {q : Char → Bool} {a : List Char} (b : List Char)
    (h : ∀ x ∈ a, q x = true) :
    List.takeWhile q (a ++ b) = a ++ List.takeWhile q b := by
  induction a with
  | nil => rfl
  | cons x xs ih =>
    have hx : q x = true := h x (List.mem_cons_self x xs)
    simp only [List.cons_append, List.takeWhile_cons, hx, if_true]
    rw [ih (fun y hy => h y (List.mem_cons_of_mem x hy))]

theorem takeWhile_append_stop {q : Char → Bool} {a : List Char} (b : List Char)
    (h : ∃ x ∈ a, ¬ q x = true) :
    List.takeWhile q (a ++ b) = List.takeWhile q a := by
  induction a with
  | nil =>
    rcases h with ⟨x, hx, _⟩
    exact absurd hx (List.not_mem_nil x)
  | cons x xs ih =>
    by_cases hx : q x = true
    · have hxs : ∃ y ∈ xs, ¬ q y = true := by
        rcases h with ⟨y, hy, hqy⟩
        rcases List.mem_cons.mp hy with rfl | hy2
        · exact absurd hx hqy
        · exact ⟨y, hy2, hqy⟩
      simp only [List.cons_append, List.takeWhile_cons, hx, if_true]
      rw [ih hxs]
    · simp only [List.cons_append, List.takeWhile_cons, hx]
      simp [hx]

theorem rtakeWhile_append_all {q : Char → Bool} {t : List Char} (b : List Char)
    (h : ∀ x ∈ t, q x = true) :
    List.rtakeWhile q (b ++ t) = List.rtakeWhile q b ++ t := by
  unfold List.rtakeWhile
  rw [List.reverse_append, takeWhile_append_all b.reverse
    (fun x hx => h x (List.mem_reverse.mp hx))]
  simp

theorem rtakeWhile_append_stop {q : Char → Bool} {b : List Char} (a : List Char)
    (h : ∃ x ∈ b, ¬ q x = true) :
    List.rtakeWhile q (a ++ b) = List.rtakeWhile q b := by
  unfold List.rtakeWhile
  rw [List.reverse_append, takeWhile_append_stop a.reverse
    (by rcases h with ⟨x, hx, hqx⟩; exact ⟨x, List.mem_reverse.mpr hx, hqx⟩)]

theorem rdropWhile_append_all {q : Char → Bool} {t : List Char} (z : List Char)
    (h : ∀ x ∈ t, q x = true) :
    List.rdropWhile q (z ++ t) = List.rdropWhile q z := by
  unfold List.rdropWhile
  rw [List.reverse_append]
  have ht : List.dropWhile q t.reverse = [] :=
    List.dropWhile_eq_nil_iff.mpr (fun x hx => h x (List.mem_reverse.mp hx))
  rw [List.dropWhile_append]
  simp [ht]

theorem rdrop_rtake_decomp (q : Char → Bool) (l : List Char) :
    l = l.rdropWhile q ++ l.rtakeWhile q := by
  unfold List.rdropWhile List.rtakeWhile
  rw [← List.reverse_append, List.takeWhile_append_dropWhile, List.reverse_reverse]

theorem sp_imp_nc (c : Char) (h : isPySpace c = true) : ncomma c = true := by
  simp only [isPySpace, Bool.or_eq_true, beq_iff_eq] at h
  rcases h with ((((rfl | rfl) | rfl) | rfl) | rfl) | rfl <;> decide

theorem pyStrip_append_spaces {t : List Char} (y : List Char)
    (h : ∀ x ∈ t, isPySpace x = true) :
    pyStrip (y ++ t) = pyStrip y := by
  unfold pyStrip trimL trimR
  rw [List.dropWhile_append]
  by_cases hy : (List.dropWhile isPySpace y).isEmpty = true
  · rw [if_pos hy]
    have h1 : List.dropWhile isPySpace t = [] := List.dropWhile_eq_nil_iff.mpr h
    have h2 : List.dropWhile isPySpace y = [] := by
      simpa using hy
    rw [h1, h2]
  · rw [if_neg hy]
    exact rdropWhile_append_all _ h

theorem strip_lastTok_trimR (X : List Char) :
    pyStrip (lastCommaTok (trimR X)) = pyStrip (lastCommaTok X) := by
  have htail : ∀ x ∈ X.rtakeWhile isPySpace, isPySpace x = true :=
    fun x hx => List.mem_rtakeWhile_imp hx
  have htailnc : ∀ x ∈ X.rtakeWhile isPySpace, ncomma x = true :=
    fun x hx => sp_imp_nc x (htail x hx)
  have hdecomp := rdrop_rtake_decomp isPySpace X
  conv_rhs => rw [hdecomp]
  unfold lastCommaTok
  rw [rtakeWhile_append_all _ htailnc]
  rw [pyStrip_append_spaces _ htail]
  unfold trimR
  rfl

theorem strip_lastTok_trimL (X : List Char) :
    pyStrip (lastCommaTok (trimL X)) = pyStrip (lastCommaTok X) := by
  have hfront : ∀ x ∈ List.takeWhile isPySpace X, ncomma x = true :=
    fun x hx => sp_imp_nc x (List.mem_takeWhile_imp hx)
  have hdecomp : X = List.takeWhile isPySpace X ++ List.dropWhile isPySpace X :=
    (List.takeWhile_append_dropWhile isPySpace X).symm
  by_cases hall : ∀ x ∈ List.dropWhile isPySpace X, ncomma x = true
  · have hX : ∀ x ∈ X, ncomma x = true := by
      intro x hx
      rcases List.mem_append.mp (hdecomp ▸ hx) with h | h
      · exact hfront x h
      · exact hall x h
    have h1 : lastCommaTok X = X := List.rtakeWhile_eq_self_iff.mpr hX
    have h2 : lastCommaTok (trimL X) = trimL X := by
      apply List.rtakeWhile_eq_self_iff.mpr
      intro x hx
      exact hall x hx
    rw [h1, h2]
    unfold pyStrip trimL
    rw [List.dropWhile_idempotent]
  · have hex : ∃ x ∈ List.dropWhile isPySpace X, ¬ ncomma x = true := by
      push_neg at hall
      exact hall
    have h1 : lastCommaTok X = lastCommaTok (trimL X) := by
      conv_lhs => rw [hdecomp]
      unfold lastCommaTok trimL
      exact rtakeWhile_append_stop _ hex
    rw [h1]

/-- The two trims in sequence: stripping the segment first does not change
the stripped trailing comma token. -/
theorem strip_lastTok_strip (s : List Char) :
    pyStrip (lastCommaTok (pyStrip s)) = pyStrip (lastCommaTok s) := by
  have hps : pyStrip s = trimR (trimL s) := rfl
  rw [hps, strip_lastTok_trimR (trimL s), strip_lastTok_trimL s]

/-- The tokens of the specification wording of C7: the trailing
comma-delimited token of each ";" segment, trimmed, kept when at least 3
characters long. -/
def specCountryTokens (text : List Char) : List (List Char) :=
  ((text.splitOn ';').map (fun seg => pyStrip (lastCommaTok seg))).filter
    (fun tok => 3 ≤ tok.length)

/-- The country string of the specification wording of C7: the deduplicated
tokens joined with "; " (the code joins the deduplicated set in sorted
order, which the claim leaves unspecified). -/
def specCountryString (text : List Char) : List Char :=
  List.intercalate (str "; ") (sortLex (dedupList (specCountryTokens text)))

theorem fold_addToSet_filter (parts : List (List Char)) (acc : List (List Char)) :
    parts.foldl (fun acc part =>
        if 3 ≤ (pyStrip (lastCommaTok part)).length
        then addToSet (pyStrip (lastCommaTok part)) acc else acc) acc
      = ((parts.map (fun p => pyStrip (lastCommaTok p))).filter
          (fun t => 3 ≤ t.length)).foldl (fun acc x => addToSet x acc) acc := by
  induction parts generalizing acc with
  | nil => rfl
  | cons p ps ih =>
    simp only [List.foldl_cons, List.map_cons, List.filter_cons]
    by_cases hp : 3 ≤ (pyStrip (lastCommaTok p)).length
    · rw [if_pos hp, if_pos (by simpa using hp), List.foldl_cons]
      exact ih _
    · rw [if_neg hp, if_neg (by simpa using hp)]
      exact ih _

theorem pyStrip_nil : pyStrip [] = [] := rfl

theorem strip_lastTok_of_strip_nil {seg : List Char} (h : pyStrip seg = []) :
    pyStrip (lastCommaTok seg) = [] := by
  rw [← strip_lastTok_strip, h]
  rfl

theorem tokens_eq (L : List (List Char)) :
    (((L.map pyStrip).filter (fun p => ¬ p = [])).map
        (fun p => pyStrip (lastCommaTok p))).filter (fun t => 3 ≤ t.length)
      = (L.map (fun seg => pyStrip (lastCommaTok seg))).filter
          (fun t => 3 ≤ t.length) := by
  induction L with
  | nil => rfl
  | cons seg rest ih =>
    simp only [List.map_cons, List.filter_cons]
    by_cases hseg : pyStrip seg = []
    · rw [if_neg (by simpa using hseg)]
      have htok : pyStrip (lastCommaTok seg) = [] := strip_lastTok_of_strip_nil hseg
      rw [htok]
      rw [if_neg (by decide)]
      exact ih
    · rw [if_pos (by simpa using hseg), List.map_cons, List.filter_cons]
      rw [strip_lastTok_strip seg]
      by_cases ht : 3 ≤ (pyStrip (lastCommaTok seg)).length
      · rw [if_pos (by simpa using ht), if_pos (by simpa using ht), ih]
      · rw [if_neg (by simpa using ht), if_neg (by simpa using ht), ih]

/-- C7 amended: country extraction computes exactly what the claim describes
— split on ";", trailing comma token of each segment, trimmed, kept when at
least 3 characters, deduplicated and joined with "; " — but when no segment
yields an acceptable token it returns the empty string, not "Unknown" (the
callers substitute "Unknown" downstream, lines 822 and 922). -/
theorem extract_countries_matches_spec (text : List Char) :
    extract_countries_from_affil text = specCountryString text
    ∧ (specCountryTokens text = [] → extract_countries_from_affil text = []) := by
  have hmain : extract_countries_from_affil text = specCountryString text := by
    have hunfold : extract_countries_from_affil text
        = List.intercalate (str "; ") (sortLex
            ((((text.splitOn ';').map pyStrip).filter (fun p => ¬ p = [])).foldl
              (fun acc part =>
                if 3 ≤ (pyStrip (lastCommaTok part)).length
                then addToSet (pyStrip (lastCommaTok part)) acc else acc) [])) := rfl
    rw [hunfold, fold_addToSet_filter, tokens_eq (text.splitOn ';')]
    rfl
  refine ⟨hmain, fun hnil => ?_⟩
  rw [hmain]
  unfold specCountryString
  rw [hnil]
  rfl

/-- C7 counterexample: on the affiliation text "Acme, ab" the trailing token
"ab" is too short, so no segment yields an acceptable country token — yet the
function returns the empty string, not the string "Unknown" the claim
requires. -/
theorem extract_countries_no_token_not_unknown :
    extract_countries_from_affil (str "Acme, ab") = []
    ∧ ¬ extract_countries_from_affil (str "Acme, ab") = str "Unknown" := by
  decide

end SLR
